import Mathlib

/-
Verification of the AST structural-equivalence checker described by the
repository specification.  Only the unit tests of the checker
(unittests/AST/StructuralEquivalenceTest.cpp) ship with the repository;
the checker itself (the StructuralEquivalenceContext engine and its
kind-specific comparators) is modelled here from the specification,
section 3 (data model) and section 4 (component design), and is checked
against the expected verdicts of the shipped unit tests.
-/

namespace StructEquiv

/-- Modelled from the spec: builtin type names (spec section 3, BuiltinType).
The spelled name `signed int` is kept distinct from `int` so that signedness
normalization (spec section 4.2) is an explicit comparison step. -/
inductive BuiltinName
  | boolName
  | charName
  | signedCharName
  | unsignedCharName
  | shortName
  | intName
  | signedIntName
  | longName
  | voidName
deriving DecidableEq

/-- Modelled from the spec: canonical signedness normalization of builtin
names (section 4.2): `int` and `signed int` normalize to the same name,
while `char`, `signed char` and `unsigned char` stay three distinct names. -/
def normalizeBuiltin : BuiltinName → BuiltinName
  | .signedIntName => .intName
  | n => n

/-- Qualifier set of a type position (spec section 3): const and volatile. -/
structure Quals where
  isConstQ : Bool
  isVolatileQ : Bool
deriving DecidableEq

def noQuals : Quals := ⟨false, false⟩

def constQuals : Quals := ⟨true, false⟩

/-- Reference kind: lvalue or rvalue reference (spec section 3). -/
inductive RefKind
  | lvalueRef
  | rvalueRef
deriving DecidableEq

/-- Modelled from the spec: the type part of the node model (section 3).
Record types are nominal: they reference the declaration of the record by
its stable identity in the owning tree (the arena-plus-index style of
section 9), which is what lets the graph of nodes contain cycles. -/
inductive Ty
  | builtin (name : BuiltinName) (q : Quals)
  | pointer (q : Quals) (pointee : Ty)
  | reference (kind : RefKind) (pointee : Ty)
  | recordRef (q : Quals) (declId : Nat)
deriving DecidableEq

/-- Drop the qualifiers of the outermost level of a type only; qualifiers
below a pointer or reference are kept.  Used for by-value parameters
(spec section 4.4): top-level const on a value parameter is insignificant. -/
def dropTopQuals : Ty → Ty
  | .builtin n _ => .builtin n noQuals
  | .pointer _ t => .pointer noQuals t
  | .reference k t => .reference k t
  | .recordRef _ i => .recordRef noQuals i

/-- Base-class specifier (spec section 3): base type and virtual-ness; the
access specifier of the inheritance is intentionally absent (section 9). -/
structure BaseSpec where
  baseType : Ty
  isVirtualBase : Bool
deriving DecidableEq

/-- Field of a record: a name and a type (spec section 3). -/
structure FieldInfo where
  fieldName : String
  fieldType : Ty
deriving DecidableEq

/-- Record declaration (spec section 3): name, definition flag, ordered
bases and ordered fields. -/
structure RecordInfo where
  recName : String
  isDefinition : Bool
  bases : List BaseSpec
  fields : List FieldInfo
deriving DecidableEq

/-- Member access specifier (spec section 3, MethodQualifiers). -/
inductive AccessSpec
  | publicAcc
  | protectedAcc
  | privateAcc
deriving DecidableEq

/-- Ref-qualifier of a method (spec section 3, MethodQualifiers). -/
inductive RefQual
  | noRefQual
  | lvalueRefQual
  | rvalueRefQual
deriving DecidableEq

/-- Modelled from the spec: method qualifiers (section 3).  The final-ness
flag is carried by the node but is never consulted by the comparator
(section 4.4: final-ness is never compared, a documented gap). -/
structure MethodQuals where
  isVirtual : Bool
  isPure : Bool
  isConstMethod : Bool
  isStatic : Bool
  refQual : RefQual
  access : AccessSpec
  isFinal : Bool
deriving DecidableEq

/-- Function kind (spec section 3): free function, method, constructor,
conversion, or operator with its operator symbol. -/
inductive FunctionKind
  | freeFn
  | methodFn
  | ctorFn
  | conversionFn
  | operatorFn (sym : String)
deriving DecidableEq

/-- Exception specification variants (spec sections 3 and 4.5).  The
condition of a conditional noexcept is an opaque token (section 9):
it is recorded but never evaluated or compared. -/
inductive ExceptionSpec
  | noSpec
  | dynamicSpec
  | noexceptUncond
  | noexceptCond (cond : Nat)
deriving DecidableEq

/-- The four-way classification of an exception specification
(spec section 4.5). -/
inductive ExcClass
  | clsNone
  | clsDynamic
  | clsUncond
  | clsCond
deriving DecidableEq

/-- Classification of an exception specification, forgetting the condition
token of a conditional noexcept. -/
def classifyExc : ExceptionSpec → ExcClass
  | .noSpec => .clsNone
  | .dynamicSpec => .clsDynamic
  | .noexceptUncond => .clsUncond
  | .noexceptCond _ => .clsCond

/-- Modelled from the spec: exception specification comparator
(section 4.5).  Two conditional noexcept specifications compare equivalent
without looking at their condition tokens. -/
def excEquiv : ExceptionSpec → ExceptionSpec → Bool
  | .noSpec, .noSpec => true
  | .dynamicSpec, .dynamicSpec => true
  | .noexceptUncond, .noexceptUncond => true
  | .noexceptCond _, .noexceptCond _ => true
  | _, _ => false

/-- Function or method declaration (spec section 3).  The `inlineBody`
flag records whether the body is written inside the class or out of class;
it is informational only and never consulted by any comparator, matching
the reference behavior where the location of the definition is
irrelevant to equivalence. -/
structure FunctionInfo where
  fnKind : FunctionKind
  retTy : Ty
  params : List Ty
  isVariadic : Bool
  excSpec : ExceptionSpec
  methodQuals : Option MethodQuals
  inlineBody : Bool
deriving DecidableEq

/-- Modelled from the spec: the closed set of declaration kinds the
checker understands (section 3).  Variable declarations appear in the
reference tests as top-level query subjects; the reference engine has no
comparator for them (the documented top-level inconsistency of
section 4.2), so the variant only records name and type.  Namespace
members are stable identities of sibling declarations; namespaces are
not compared as units (section 4.7). -/
inductive Decl
  | var (name : String) (type : Ty)
  | record (info : RecordInfo)
  | function (info : FunctionInfo)
  | templateSpec (templateName : String) (args : List Ty) (specRecord : RecordInfo)
  | namespaceDecl (members : List Nat)
deriving DecidableEq

/-- A tree (one side of a comparison): an arena of declarations indexed by
stable identity (spec sections 6 and 9: stable-identity keys into an
external arena, nodes never mutated by the checker). -/
structure Tree where
  decls : List Decl

/-- Structural type equivalence (spec section 4.2).  The result is `none`
on a definitive mismatch, and `some pairs` when the two types are
equivalent provided every listed pair of record declarations is
equivalent; record pairs are deferred to the queue rather than expanded
in place. -/
def tyEquiv : Ty → Ty → Option (List (Nat × Nat))
  | .builtin n1 q1, .builtin n2 q2 =>
      if normalizeBuiltin n1 = normalizeBuiltin n2 ∧ q1 = q2 then some [] else none
  | .pointer q1 t1, .pointer q2 t2 =>
      if q1 = q2 then tyEquiv t1 t2 else none
  | .reference k1 t1, .reference k2 t2 =>
      if k1 = k2 then tyEquiv t1 t2 else none
  | .recordRef q1 i1, .recordRef q2 i2 =>
      if q1 = q2 then some [(i1, i2)] else none
  | _, _ => none

/-- Pairwise equivalence of two ordered sequences (spec sections 4.3 and
4.4: bases, fields, parameters and template arguments are compared
pairwise in declared order); a length mismatch is a mismatch. -/
def seqEquiv (f : α → β → Option (List (Nat × Nat))) :
    List α → List β → Option (List (Nat × Nat))
  | [], [] => some []
  | a :: as, b :: bs =>
      match f a b, seqEquiv f as bs with
      | some c1, some c2 => some (c1 ++ c2)
      | _, _ => none
  | _, _ => none

/-- Parameter equivalence (spec section 4.4): parameter names are ignored
and top-level qualifiers of the parameter type are dropped before the
type comparison. -/
def paramEquiv (p1 p2 : Ty) : Option (List (Nat × Nat)) :=
  tyEquiv (dropTopQuals p1) (dropTopQuals p2)

/-- Base-specifier equivalence (spec section 4.3): virtual-ness must
match and the base types must be equivalent; the access specifier of the
inheritance is not compared. -/
def baseEquiv (b1 b2 : BaseSpec) : Option (List (Nat × Nat)) :=
  if b1.isVirtualBase = b2.isVirtualBase then tyEquiv b1.baseType b2.baseType else none

/-- Field equivalence: the field types must be equivalent, and the field
names must coincide, which is what makes a tree-level reordering of
same-typed fields observable (reference test WrongOrderOfFieldsInClass). -/
def fieldEquiv (f1 f2 : FieldInfo) : Option (List (Nat × Nat)) :=
  if f1.fieldName = f2.fieldName then tyEquiv f1.fieldType f2.fieldType else none

/-- Method-qualifier comparison (spec section 4.4): virtual, pure, const,
static, ref-qualifier and access must all match; the final-ness flag is
never compared (documented gap, section 9). -/
def mqEquiv (m1 m2 : MethodQuals) : Bool :=
  if m1.isVirtual = m2.isVirtual ∧ m1.isPure = m2.isPure ∧
      m1.isConstMethod = m2.isConstMethod ∧ m1.isStatic = m2.isStatic ∧
      m1.refQual = m2.refQual ∧ m1.access = m2.access
  then true else false

/-- Comparison of the optional method-qualifier slots of two functions:
both absent is a match, both present delegates to `mqEquiv`, and a
present-versus-absent pair is a mismatch. -/
def optMqEquiv : Option MethodQuals → Option MethodQuals → Bool
  | none, none => true
  | some m1, some m2 => mqEquiv m1 m2
  | _, _ => false

/-- Modelled from the spec: the function and method comparator
(section 4.4).  Same kind, matching method qualifiers (final-ness
excepted), same variadic flag, equivalent exception specifications,
equivalent return type with qualifiers significant, and pairwise
equivalent parameters with top-level qualifiers dropped.  The
`inlineBody` flag is not consulted. -/
def functionEquiv (f1 f2 : FunctionInfo) : Option (List (Nat × Nat)) :=
  if f1.fnKind = f2.fnKind ∧ f1.isVariadic = f2.isVariadic ∧
      optMqEquiv f1.methodQuals f2.methodQuals = true ∧
      excEquiv f1.excSpec f2.excSpec = true then
    match tyEquiv f1.retTy f2.retTy, seqEquiv paramEquiv f1.params f2.params with
    | some c1, some c2 => some (c1 ++ c2)
    | _, _ => none
  else none

/-- Modelled from the spec: the record comparator (section 4.3).  Names
must coincide; when both sides are definitions the bases and fields are
compared pairwise in declared order, otherwise only the name is compared
(definition versus forward declaration is equivalent). -/
def recordEquiv (r1 r2 : RecordInfo) : Option (List (Nat × Nat)) :=
  if r1.recName = r2.recName then
    if r1.isDefinition ∧ r2.isDefinition then
      match seqEquiv baseEquiv r1.bases r2.bases,
            seqEquiv fieldEquiv r1.fields r2.fields with
      | some c1, some c2 => some (c1 ++ c2)
      | _, _ => none
    else some []
  else none

/-- Modelled from the spec: the kind dispatcher of the engine
(section 4.1) together with the per-kind comparators that are missing
from the shipped sources.  A kind mismatch is an immediate mismatch.
Variable declarations have no comparator in the reference engine
(the documented top-level inconsistency of section 4.2), so a pair of
them compares equivalent without their types being looked at; namespaces
are never compared as units (section 4.7), so a pair of them likewise
yields no checks. -/
def declEquiv : Decl → Decl → Option (List (Nat × Nat))
  | .var _ _, .var _ _ => some []
  | .record r1, .record r2 => recordEquiv r1 r2
  | .function f1, .function f2 => functionEquiv f1 f2
  | .templateSpec n1 a1 r1, .templateSpec n2 a2 r2 =>
      if n1 = n2 then
        match seqEquiv tyEquiv a1 a2, recordEquiv r1 r2 with
        | some c1, some c2 => some (c1 ++ c2)
        | _, _ => none
      else none
  | .namespaceDecl _, .namespaceDecl _ => some []
  | _, _ => none

/-- Compare the pair of declarations designated by a pair of stable
identities, one in each tree.  An identity that does not resolve in its
arena is a contract violation (spec section 7) and is treated as a
mismatch here. -/
def compareDecl (t1 t2 : Tree) (p : Nat × Nat) : Option (List (Nat × Nat)) :=
  match t1.decls[p.1]?, t2.decls[p.2]? with
  | some d1, some d2 => declEquiv d1 d2
  | _, _ => none

/-- Modelled from the spec: the queue-and-memo traversal of the
Equivalence Context (section 4.1).  A popped pair already present in the
memo is skipped; a fresh pair is recorded in the memo and its comparator
either reports a definitive mismatch, which makes the whole query false,
or enqueues the child pairs it derived.  The query is true when the
queue drains.  The traversal is fuel-indexed; `none` means the fuel ran
out before the queue drained. -/
def processQueue (t1 t2 : Tree) :
    Nat → List (Nat × Nat) → List (Nat × Nat) → Option Bool
  | 0, _, _ => none
  | _ + 1, [], _ => some true
  | fuel + 1, p :: rest, memo =>
      if p ∈ memo then processQueue t1 t2 fuel rest memo
      else
        match compareDecl t1 t2 p with
        | none => some false
        | some children => processQueue t1 t2 fuel (rest ++ children) (p :: memo)

/-- The record-reference identities occurring in a type. -/
def refsOfTy : Ty → List Nat
  | .builtin _ _ => []
  | .pointer _ t => refsOfTy t
  | .reference _ t => refsOfTy t
  | .recordRef _ i => [i]

/-- The record-reference identities occurring in a record declaration:
those of its base types and field types. -/
def refsOfRecord (r : RecordInfo) : List Nat :=
  (r.bases.map fun b => refsOfTy b.baseType).flatten ++
    (r.fields.map fun f => refsOfTy f.fieldType).flatten

/-- The record-reference identities a comparator can derive child pairs
from, per declaration kind. -/
def refsOfDecl : Decl → List Nat
  | .var _ t => refsOfTy t
  | .record r => refsOfRecord r
  | .function f => refsOfTy f.retTy ++ (f.params.map refsOfTy).flatten
  | .templateSpec _ args r => (args.map refsOfTy).flatten ++ refsOfRecord r
  | .namespaceDecl _ => []

/-- All record-reference identities occurring anywhere in a tree. -/
def idsOfTree (t : Tree) : List Nat :=
  (t.decls.map refsOfDecl).flatten

/-- A fuel budget sufficient for the traversal to drain its queue on any
input (proved below): the number of distinct pairs the memo can ever
hold times a bound on the number of children one expansion can enqueue.
The expression is symmetric in the two trees. -/
def fuelBound (t1 t2 : Tree) : Nat :=
  (1 + (idsOfTree t1).length) * (1 + (idsOfTree t2).length) *
    ((idsOfTree t1).length + (idsOfTree t2).length + 1) + 2

/-- Modelled from the spec: the public contract of the Equivalence
Context (section 4.1), `isEquivalent(declA, declB) -> bool`, over the
two arenas and the stable identities of the two queried declarations. -/
def isEquivalent (t1 t2 : Tree) (d1 d2 : Nat) : Bool :=
  (processQueue t1 t2 (fuelBound t1 t2) [(d1, d2)] []).getD false

/-! Concrete fixtures mirroring the translation units of the shipped unit
tests (unittests/AST/StructuralEquivalenceTest.cpp). -/

def intTy : Ty := .builtin .intName noQuals

def sintTy : Ty := .builtin .signedIntName noQuals

def charTy : Ty := .builtin .charName noQuals

def scharTy : Ty := .builtin .signedCharName noQuals

def voidTy : Ty := .builtin .voidName noQuals

/-- Tree of a single top-level variable declaration, as in `int foo;`. -/
def varTree (t : Ty) : Tree := ⟨[.var "foo" t]⟩

/-- Tree of a single record with one field, as in `struct foo { int x; };`. -/
def recTree (t : Ty) : Tree := ⟨[.record ⟨"foo", true, [], [⟨"x", t⟩]⟩]⟩

/-- Tree of a class template specialization with one template argument and
an empty specialized record, as in `template <> struct foo<int> {};`. -/
def specTree (t : Ty) : Tree := ⟨[.templateSpec "foo" [t] ⟨"foo", true, [], []⟩]⟩

/-- An empty record definition with the given name, as in `struct A { };`. -/
def emptyRec (n : String) : Decl := .record ⟨n, true, [], []⟩

/-- A free function `void foo(...)` with the given parameter types. -/
def fooFn (ps : List Ty) : Decl :=
  .function ⟨.freeFn, voidTy, ps, false, .noSpec, none, false⟩

/-- Tree of `struct A{}; struct B{}; void foo(A, A);` — declaration 2 is
the function, and both parameters reference record A (identity 0). -/
def treeAA : Tree :=
  ⟨[emptyRec "A", emptyRec "B", fooFn [.recordRef noQuals 0, .recordRef noQuals 0]]⟩

/-- Tree of `struct A{}; struct B{}; void foo(A, B);` — declaration 2 is
the function, parameters reference records A (identity 0) and B (1). -/
def treeAB : Tree :=
  ⟨[emptyRec "A", emptyRec "B", fooFn [.recordRef noQuals 0, .recordRef noQuals 1]]⟩

/-- Tree of a free function `void foo()` with the given exception
specification. -/
def fnExc (e : ExceptionSpec) : Tree :=
  ⟨[.function ⟨.freeFn, voidTy, [], false, e, none, false⟩]⟩

/-- Tree of the WrongOrderInNamespace fixture: a namespace holding a class
template Base (modelled by its specialization over Derived, declaration 1)
and a class Derived deriving from Base instantiated with Derived itself
(declaration 2, a cycle), plus a free function `void foo(NS::Derived &);`
(declaration 3).  The namespace member list is the only part that differs
between the reordered variants. -/
def nsTree (members : List Nat) : Tree :=
  ⟨[.namespaceDecl members,
    .templateSpec "Base" [.recordRef noQuals 2] ⟨"Base", true, [], [⟨"a", intTy⟩]⟩,
    .record ⟨"Derived", true, [⟨.recordRef noQuals 1, false⟩], []⟩,
    .function ⟨.freeFn, voidTy, [.reference .lvalueRef (.recordRef noQuals 2)],
               false, .noSpec, none, false⟩]⟩

/-- Tree of a record `class X { ... };` with the given field list. -/
def fieldsTree (fs : List FieldInfo) : Tree := ⟨[.record ⟨"X", true, [], fs⟩]⟩

/-- Tree of a free function `void foo(...)` with the given parameters. -/
def fnParams (ps : List Ty) : Tree := ⟨[fooFn ps]⟩

/-- Method qualifiers of a plain public non-virtual method. -/
def baseMQ : MethodQuals := ⟨false, false, false, false, .noRefQual, .publicAcc, false⟩

/-- Tree of a single method `void foo();` inside a record, carrying the
given method qualifiers; the body is written in-class. -/
def methodTree (mq : MethodQuals) : Tree :=
  ⟨[.function ⟨.methodFn, voidTy, [], false, .noSpec, some mq, true⟩]⟩

/-- Tree of a virtual method `virtual void f();` whose body is written
in-class (`inl = true`) or out of class (`inl = false`). -/
def virtMethodTree (inl : Bool) : Tree :=
  ⟨[.function ⟨.methodFn, voidTy, [], false, .noSpec,
               some { baseMQ with isVirtual := true }, inl⟩]⟩

/-- Tree of a non-virtual method `void f();` whose body is written
in-class or out of class. -/
def plainMethodTree (inl : Bool) : Tree :=
  ⟨[.function ⟨.methodFn, voidTy, [], false, .noSpec, some baseMQ, inl⟩]⟩

/-! Bounds on the child pairs a comparator can derive: every child pair
is made of record-reference identities of the compared declarations, and
there are no more children than such identities on the left side.  These
facts drive the termination argument for the queue traversal. -/

theorem dropTopQuals_refs (t : Ty) : refsOfTy (dropTopQuals t) = refsOfTy t := by
  cases t <;> rfl

theorem tyEquiv_refs (a : Ty) : ∀ (b : Ty) (l : List (Nat × Nat)), tyEquiv a b = some l →
    (∀ p ∈ l, p.1 ∈ refsOfTy a ∧ p.2 ∈ refsOfTy b) ∧ l.length ≤ (refsOfTy a).length := by
  induction a with
  | builtin n1 q1 =>
      intro b l h
      cases b <;> simp only [tyEquiv] at h
      case builtin n2 q2 =>
        split at h
        · cases h; simp
        · cases h
      all_goals cases h
  | pointer q1 t1 ih =>
      intro b l h
      cases b <;> simp only [tyEquiv] at h
      case pointer q2 t2 =>
        split at h
        · exact ih t2 l h
        · cases h
      all_goals cases h
  | reference k1 t1 ih =>
      intro b l h
      cases b <;> simp only [tyEquiv] at h
      case reference k2 t2 =>
        split at h
        · exact ih t2 l h
        · cases h
      all_goals cases h
  | recordRef q1 i1 =>
      intro b l h
      cases b <;> simp only [tyEquiv] at h
      case recordRef q2 i2 =>
        split at h
        · cases h; simp [refsOfTy]
        · cases h
      all_goals cases h

theorem seqEquiv_refs {α β : Type} (f : α → β → Option (List (Nat × Nat)))
    (g : α → List Nat) (gb : β → List Nat)
    (hf : ∀ a b l, f a b = some l →
      (∀ p ∈ l, p.1 ∈ g a ∧ p.2 ∈ gb b) ∧ l.length ≤ (g a).length) :
    ∀ (as : List α) (bs : List β) (l : List (Nat × Nat)), seqEquiv f as bs = some l →
      (∀ p ∈ l, p.1 ∈ (as.map g).flatten ∧ p.2 ∈ (bs.map gb).flatten) ∧
        l.length ≤ ((as.map g).flatten).length := by
  intro as
  induction as with
  | nil =>
      intro bs l h
      cases bs with
      | nil => simp only [seqEquiv] at h; cases h; simp
      | cons b bs => simp only [seqEquiv] at h; cases h
  | cons a as ih =>
      intro bs l h
      cases bs with
      | nil => simp only [seqEquiv] at h; cases h
      | cons b bs =>
          simp only [seqEquiv] at h
          cases hfa : f a b with
          | none => rw [hfa] at h; cases h
          | some c1 =>
              cases hrest : seqEquiv f as bs with
              | none => rw [hfa, hrest] at h; cases h
              | some c2 =>
                  rw [hfa, hrest] at h
                  cases h
                  obtain ⟨hm1, hl1⟩ := hf a b c1 hfa
                  obtain ⟨hm2, hl2⟩ := ih bs c2 hrest
                  constructor
                  · intro p hp
                    rcases List.mem_append.mp hp with hp1 | hp2
                    · obtain ⟨h1, h2⟩ := hm1 p hp1
                      exact ⟨by simp [h1], by simp [h2]⟩
                    · obtain ⟨h1, h2⟩ := hm2 p hp2
                      exact ⟨by simp [h1], by simp [h2]⟩
                  · simp only [List.map_cons, List.flatten_cons, List.length_append]
                    exact Nat.add_le_add hl1 hl2

theorem recordEquiv_refs (r1 r2 : RecordInfo) (l : List (Nat × Nat))
    (h : recordEquiv r1 r2 = some l) :
    (∀ p ∈ l, p.1 ∈ refsOfRecord r1 ∧ p.2 ∈ refsOfRecord r2) ∧
      l.length ≤ (refsOfRecord r1).length := by
  have hbase : ∀ (a b : BaseSpec) (l : List (Nat × Nat)), baseEquiv a b = some l →
      (∀ p ∈ l, p.1 ∈ refsOfTy a.baseType ∧ p.2 ∈ refsOfTy b.baseType) ∧
        l.length ≤ (refsOfTy a.baseType).length := by
    intro a b l h
    simp only [baseEquiv] at h
    split at h
    · exact tyEquiv_refs _ _ _ h
    · cases h
  have hfield : ∀ (a b : FieldInfo) (l : List (Nat × Nat)), fieldEquiv a b = some l →
      (∀ p ∈ l, p.1 ∈ refsOfTy a.fieldType ∧ p.2 ∈ refsOfTy b.fieldType) ∧
        l.length ≤ (refsOfTy a.fieldType).length := by
    intro a b l h
    simp only [fieldEquiv] at h
    split at h
    · exact tyEquiv_refs _ _ _ h
    · cases h
  simp only [recordEquiv] at h
  split at h
  · split at h
    · cases hb : seqEquiv baseEquiv r1.bases r2.bases with
      | none => rw [hb] at h; cases h
      | some c1 =>
          cases hfs : seqEquiv fieldEquiv r1.fields r2.fields with
          | none => rw [hb, hfs] at h; cases h
          | some c2 =>
              rw [hb, hfs] at h
              cases h
              obtain ⟨hm1, hl1⟩ :=
                seqEquiv_refs baseEquiv (fun b => refsOfTy b.baseType)
                  (fun b => refsOfTy b.baseType) hbase r1.bases r2.bases c1 hb
              obtain ⟨hm2, hl2⟩ :=
                seqEquiv_refs fieldEquiv (fun f => refsOfTy f.fieldType)
                  (fun f => refsOfTy f.fieldType) hfield r1.fields r2.fields c2 hfs
              constructor
              · intro p hp
                rcases List.mem_append.mp hp with hp1 | hp2
                · obtain ⟨h1, h2⟩ := hm1 p hp1
                  exact ⟨by simp [refsOfRecord, h1], by simp [refsOfRecord, h2]⟩
                · obtain ⟨h1, h2⟩ := hm2 p hp2
                  exact ⟨by simp [refsOfRecord, h1], by simp [refsOfRecord, h2]⟩
              · simp only [refsOfRecord, List.length_append]
                exact Nat.add_le_add hl1 hl2
    · cases h; simp
  · cases h

theorem functionEquiv_refs (f1 f2 : FunctionInfo) (l : List (Nat × Nat))
    (h : functionEquiv f1 f2 = some l) :
    (∀ p ∈ l, p.1 ∈ refsOfDecl (.function f1) ∧ p.2 ∈ refsOfDecl (.function f2)) ∧
      l.length ≤ (refsOfDecl (.function f1)).length := by
  have hparam : ∀ (a b : Ty) (l : List (Nat × Nat)), paramEquiv a b = some l →
      (∀ p ∈ l, p.1 ∈ refsOfTy a ∧ p.2 ∈ refsOfTy b) ∧ l.length ≤ (refsOfTy a).length := by
    intro a b l h
    have := tyEquiv_refs (dropTopQuals a) (dropTopQuals b) l h
    rwa [dropTopQuals_refs, dropTopQuals_refs] at this
  simp only [functionEquiv] at h
  split at h
  · cases hr : tyEquiv f1.retTy f2.retTy with
    | none => rw [hr] at h; cases h
    | some c1 =>
        cases hp : seqEquiv paramEquiv f1.params f2.params with
        | none => rw [hr, hp] at h; cases h
        | some c2 =>
            rw [hr, hp] at h
            cases h
            obtain ⟨hm1, hl1⟩ := tyEquiv_refs _ _ _ hr
            obtain ⟨hm2, hl2⟩ := seqEquiv_refs paramEquiv refsOfTy refsOfTy hparam
              f1.params f2.params c2 hp
            constructor
            · intro p hp'
              rcases List.mem_append.mp hp' with hp1 | hp2
              · obtain ⟨h1, h2⟩ := hm1 p hp1
                exact ⟨by simp [refsOfDecl, h1], by simp [refsOfDecl, h2]⟩
              · obtain ⟨h1, h2⟩ := hm2 p hp2
                exact ⟨by simp [refsOfDecl, h1], by simp [refsOfDecl, h2]⟩
            · simp only [refsOfDecl, List.length_append]
              exact Nat.add_le_add hl1 hl2
  · cases h

theorem declEquiv_refs (d1 d2 : Decl) (l : List (Nat × Nat))
    (h : declEquiv d1 d2 = some l) :
    (∀ p ∈ l, p.1 ∈ refsOfDecl d1 ∧ p.2 ∈ refsOfDecl d2) ∧
      l.length ≤ (refsOfDecl d1).length := by
  cases d1 <;> cases d2 <;> simp only [declEquiv] at h
  case var.var => cases h; simp
  case record.record r1 r2 =>
      have := recordEquiv_refs r1 r2 l h
      simpa [refsOfDecl] using this
  case function.function f1 f2 => exact functionEquiv_refs f1 f2 l h
  case templateSpec.templateSpec n1 a1 r1 n2 a2 r2 =>
      split at h
      · cases ha : seqEquiv tyEquiv a1 a2 with
        | none => rw [ha] at h; cases h
        | some c1 =>
            cases hrec : recordEquiv r1 r2 with
            | none => rw [ha, hrec] at h; cases h
            | some c2 =>
                rw [ha, hrec] at h
                cases h
                obtain ⟨hm1, hl1⟩ := seqEquiv_refs tyEquiv refsOfTy refsOfTy
                  (fun a b l h => tyEquiv_refs a b l h) a1 a2 c1 ha
                obtain ⟨hm2, hl2⟩ := recordEquiv_refs r1 r2 c2 hrec
                constructor
                · intro p hp
                  rcases List.mem_append.mp hp with hp1 | hp2
                  · obtain ⟨h1, h2⟩ := hm1 p hp1
                    exact ⟨by simp [refsOfDecl, h1], by simp [refsOfDecl, h2]⟩
                  · obtain ⟨h1, h2⟩ := hm2 p hp2
                    exact ⟨by simp [refsOfDecl, h1], by simp [refsOfDecl, h2]⟩
                · simp only [refsOfDecl, List.length_append]
                  exact Nat.add_le_add hl1 hl2
      · cases h
  case namespaceDecl.namespaceDecl => cases h; simp
  all_goals cases h

theorem compareDecl_refs (t1 t2 : Tree) (p : Nat × Nat) (l : List (Nat × Nat))
    (h : compareDecl t1 t2 p = some l) :
    (∀ q ∈ l, q.1 ∈ idsOfTree t1 ∧ q.2 ∈ idsOfTree t2) ∧
      l.length ≤ (idsOfTree t1).length := by
  simp only [compareDecl] at h
  cases h1 : t1.decls[p.1]? with
  | none => rw [h1] at h; cases h
  | some d1 =>
      cases h2 : t2.decls[p.2]? with
      | none => rw [h1, h2] at h; cases h
      | some d2 =>
          rw [h1, h2] at h
          obtain ⟨hm, hl⟩ := declEquiv_refs d1 d2 l h
          have hsub1 : (refsOfDecl d1).Sublist (idsOfTree t1) :=
            List.sublist_flatten_of_mem
              (List.mem_map_of_mem refsOfDecl (List.getElem?_mem h1))
          have hsub2 : (refsOfDecl d2).Sublist (idsOfTree t2) :=
            List.sublist_flatten_of_mem
              (List.mem_map_of_mem refsOfDecl (List.getElem?_mem h2))
          constructor
          · intro q hq
            obtain ⟨hq1, hq2⟩ := hm q hq
            exact ⟨hsub1.subset hq1, hsub2.subset hq2⟩
          · exact Nat.le_trans hl hsub1.length_le

/-- Fuel adequacy of the queue traversal: whenever every queued and every
memoized pair is drawn from a finite universe of pairs covering the
record references of the two trees, and the fuel exceeds the number of
not-yet-memoized pairs times the per-expansion children bound plus the
queue length, the traversal reaches a verdict.  The memo check is what
makes the measure drop on every expansion: a pair is expanded at most
once. -/
theorem processQueue_fuel (t1 t2 : Tree) (A B : Finset Nat)
    (hA : ∀ i ∈ idsOfTree t1, i ∈ A) (hB : ∀ i ∈ idsOfTree t2, i ∈ B) :
    ∀ (fuel : Nat) (queue memo : List (Nat × Nat)),
      (∀ p ∈ queue, p.1 ∈ A ∧ p.2 ∈ B) →
      (∀ p ∈ memo, p.1 ∈ A ∧ p.2 ∈ B) →
      memo.Nodup →
      (A.card * B.card - memo.length) * ((idsOfTree t1).length + 1) + queue.length < fuel →
      (processQueue t1 t2 fuel queue memo).isSome := by
  intro fuel
  induction fuel with
  | zero => intro queue memo _ _ _ hm; omega
  | succ fuel ih =>
      intro queue memo hq hmem hnd hm
      cases queue with
      | nil => simp [processQueue]
      | cons p rest =>
          simp only [processQueue]
          by_cases hp : p ∈ memo
          · rw [if_pos hp]
            refine ih rest memo (fun q hq' => hq q (List.mem_cons_of_mem _ hq')) hmem hnd ?_
            simp only [List.length_cons] at hm
            omega
          · rw [if_neg hp]
            cases hc : compareDecl t1 t2 p with
            | none => simp
            | some children =>
                obtain ⟨hcm, hcl⟩ := compareDecl_refs t1 t2 p children hc
                have hnd' : (p :: memo).Nodup := List.nodup_cons.mpr ⟨hp, hnd⟩
                have hmem' : ∀ q ∈ p :: memo, q.1 ∈ A ∧ q.2 ∈ B := by
                  intro q hq'
                  rcases List.mem_cons.mp hq' with rfl | hq''
                  · exact hq q (List.mem_cons_self _ _)
                  · exact hmem q hq''
                have hsub : (p :: memo).toFinset ⊆ A ×ˢ B := by
                  intro q hq'
                  rw [List.mem_toFinset] at hq'
                  exact Finset.mem_product.mpr (hmem' q hq')
                have hcard : memo.length + 1 ≤ A.card * B.card := by
                  have h1 := List.toFinset_card_of_nodup hnd'
                  have h2 := Finset.card_le_card hsub
                  rw [Finset.card_product, h1] at h2
                  simpa using h2
                refine ih (rest ++ children) (p :: memo) ?_ hmem' hnd' ?_
                · intro q hq'
                  rcases List.mem_append.mp hq' with hq1 | hq2
                  · exact hq q (List.mem_cons_of_mem _ hq1)
                  · obtain ⟨h1, h2⟩ := hcm q hq2
                    exact ⟨hA _ h1, hB _ h2⟩
                · have hk : A.card * B.card - memo.length =
                      (A.card * B.card - (memo.length + 1)) + 1 := by omega
                  have hmul : (A.card * B.card - memo.length) * ((idsOfTree t1).length + 1) =
                      (A.card * B.card - (memo.length + 1)) * ((idsOfTree t1).length + 1) +
                        ((idsOfTree t1).length + 1) := by
                    rw [hk, Nat.succ_mul]
                  simp only [List.length_cons, List.length_append] at hm ⊢
                  omega

/-! Symmetry of the comparators and of the queue traversal: swapping the
two sides of every pair commutes with every comparison step. -/

theorem excEquiv_symm (e1 e2 : ExceptionSpec) : excEquiv e2 e1 = excEquiv e1 e2 := by
  cases e1 <;> cases e2 <;> rfl

theorem mqEquiv_symm (m1 m2 : MethodQuals) : mqEquiv m2 m1 = mqEquiv m1 m2 := by
  simp only [mqEquiv]
  by_cases hc : m1.isVirtual = m2.isVirtual ∧ m1.isPure = m2.isPure ∧
      m1.isConstMethod = m2.isConstMethod ∧ m1.isStatic = m2.isStatic ∧
      m1.refQual = m2.refQual ∧ m1.access = m2.access
  · rw [if_pos hc, if_pos ⟨hc.1.symm, hc.2.1.symm, hc.2.2.1.symm, hc.2.2.2.1.symm,
      hc.2.2.2.2.1.symm, hc.2.2.2.2.2.symm⟩]
  · rw [if_neg hc, if_neg (fun h => hc ⟨h.1.symm, h.2.1.symm, h.2.2.1.symm,
      h.2.2.2.1.symm, h.2.2.2.2.1.symm, h.2.2.2.2.2.symm⟩)]

theorem optMqEquiv_symm (o1 o2 : Option MethodQuals) :
    optMqEquiv o2 o1 = optMqEquiv o1 o2 := by
  cases o1 <;> cases o2 <;> simp only [optMqEquiv]
  exact mqEquiv_symm _ _

theorem tyEquiv_swap (a : Ty) : ∀ b : Ty,
    tyEquiv b a = (tyEquiv a b).map (List.map Prod.swap) := by
  induction a with
  | builtin n1 q1 =>
      intro b
      cases b <;> simp only [tyEquiv]
      case builtin n2 q2 =>
        by_cases hc : normalizeBuiltin n1 = normalizeBuiltin n2 ∧ q1 = q2
        · rw [if_pos ⟨hc.1.symm, hc.2.symm⟩, if_pos hc]; rfl
        · rw [if_neg (fun h => hc ⟨h.1.symm, h.2.symm⟩), if_neg hc]; rfl
      all_goals rfl
  | pointer q1 t1 ih =>
      intro b
      cases b <;> simp only [tyEquiv]
      case pointer q2 t2 =>
        by_cases hc : q1 = q2
        · rw [if_pos hc.symm, if_pos hc]; exact ih t2
        · rw [if_neg (fun h => hc h.symm), if_neg hc]; rfl
      all_goals rfl
  | reference k1 t1 ih =>
      intro b
      cases b <;> simp only [tyEquiv]
      case reference k2 t2 =>
        by_cases hc : k1 = k2
        · rw [if_pos hc.symm, if_pos hc]; exact ih t2
        · rw [if_neg (fun h => hc h.symm), if_neg hc]; rfl
      all_goals rfl
  | recordRef q1 i1 =>
      intro b
      cases b <;> simp only [tyEquiv]
      case recordRef q2 i2 =>
        by_cases hc : q1 = q2
        · rw [if_pos hc.symm, if_pos hc]; rfl
        · rw [if_neg (fun h => hc h.symm), if_neg hc]; rfl
      all_goals rfl

theorem seqEquiv_swap {α β : Type} (f : α → β → Option (List (Nat × Nat)))
    (fr : β → α → Option (List (Nat × Nat)))
    (hf : ∀ a b, fr b a = (f a b).map (List.map Prod.swap)) :
    ∀ (as : List α) (bs : List β),
      seqEquiv fr bs as = (seqEquiv f as bs).map (List.map Prod.swap) := by
  intro as
  induction as with
  | nil =>
      intro bs
      cases bs <;> rfl
  | cons a as ih =>
      intro bs
      cases bs with
      | nil => rfl
      | cons b bs =>
          simp only [seqEquiv]
          rw [hf a b, ih bs]
          cases tyEquivFst : f a b <;> cases tyEquivSnd : seqEquiv f as bs <;>
            simp [List.map_append]

theorem paramEquiv_swap (p1 p2 : Ty) :
    paramEquiv p2 p1 = (paramEquiv p1 p2).map (List.map Prod.swap) := by
  simp only [paramEquiv]
  exact tyEquiv_swap (dropTopQuals p1) (dropTopQuals p2)

theorem baseEquiv_swap (b1 b2 : BaseSpec) :
    baseEquiv b2 b1 = (baseEquiv b1 b2).map (List.map Prod.swap) := by
  simp only [baseEquiv]
  by_cases hc : b1.isVirtualBase = b2.isVirtualBase
  · rw [if_pos hc.symm, if_pos hc]; exact tyEquiv_swap _ _
  · rw [if_neg (fun h => hc h.symm), if_neg hc]; rfl

theorem fieldEquiv_swap (f1 f2 : FieldInfo) :
    fieldEquiv f2 f1 = (fieldEquiv f1 f2).map (List.map Prod.swap) := by
  simp only [fieldEquiv]
  by_cases hc : f1.fieldName = f2.fieldName
  · rw [if_pos hc.symm, if_pos hc]; exact tyEquiv_swap _ _
  · rw [if_neg (fun h => hc h.symm), if_neg hc]; rfl

theorem recordEquiv_swap (r1 r2 : RecordInfo) :
    recordEquiv r2 r1 = (recordEquiv r1 r2).map (List.map Prod.swap) := by
  simp only [recordEquiv]
  by_cases hn : r1.recName = r2.recName
  · rw [if_pos hn.symm, if_pos hn]
    by_cases hd : r1.isDefinition ∧ r2.isDefinition
    · rw [if_pos ⟨hd.2, hd.1⟩, if_pos hd]
      rw [seqEquiv_swap baseEquiv baseEquiv baseEquiv_swap r1.bases r2.bases,
          seqEquiv_swap fieldEquiv fieldEquiv fieldEquiv_swap r1.fields r2.fields]
      cases seqEquiv baseEquiv r1.bases r2.bases <;>
        cases seqEquiv fieldEquiv r1.fields r2.fields <;> simp [List.map_append]
    · rw [if_neg (fun h => hd ⟨h.2, h.1⟩), if_neg hd]; rfl
  · rw [if_neg (fun h => hn h.symm), if_neg hn]; rfl

theorem functionEquiv_swap (f1 f2 : FunctionInfo) :
    functionEquiv f2 f1 = (functionEquiv f1 f2).map (List.map Prod.swap) := by
  simp only [functionEquiv]
  by_cases hc : f1.fnKind = f2.fnKind ∧ f1.isVariadic = f2.isVariadic ∧
      optMqEquiv f1.methodQuals f2.methodQuals = true ∧
      excEquiv f1.excSpec f2.excSpec = true
  · have hflip : f2.fnKind = f1.fnKind ∧ f2.isVariadic = f1.isVariadic ∧
        optMqEquiv f2.methodQuals f1.methodQuals = true ∧
        excEquiv f2.excSpec f1.excSpec = true :=
      ⟨hc.1.symm, hc.2.1.symm, by rw [optMqEquiv_symm]; exact hc.2.2.1,
        by rw [excEquiv_symm]; exact hc.2.2.2⟩
    rw [if_pos hflip, if_pos hc]
    rw [tyEquiv_swap f1.retTy f2.retTy,
        seqEquiv_swap paramEquiv paramEquiv paramEquiv_swap f1.params f2.params]
    cases tyEquiv f1.retTy f2.retTy <;>
      cases seqEquiv paramEquiv f1.params f2.params <;> simp [List.map_append]
  · have hflip : ¬(f2.fnKind = f1.fnKind ∧ f2.isVariadic = f1.isVariadic ∧
        optMqEquiv f2.methodQuals f1.methodQuals = true ∧
        excEquiv f2.excSpec f1.excSpec = true) := by
      intro h
      exact hc ⟨h.1.symm, h.2.1.symm, by rw [← optMqEquiv_symm]; exact h.2.2.1,
        by rw [← excEquiv_symm]; exact h.2.2.2⟩
    rw [if_neg hflip, if_neg hc]; rfl

theorem declEquiv_swap (d1 d2 : Decl) :
    declEquiv d2 d1 = (declEquiv d1 d2).map (List.map Prod.swap) := by
  cases d1 <;> cases d2 <;> simp only [declEquiv]
  case record.record r1 r2 => exact recordEquiv_swap r1 r2
  case function.function f1 f2 => exact functionEquiv_swap f1 f2
  case templateSpec.templateSpec n1 a1 r1 n2 a2 r2 =>
      by_cases hn : n1 = n2
      · rw [if_pos hn.symm, if_pos hn]
        rw [seqEquiv_swap tyEquiv tyEquiv tyEquiv_swap a1 a2, recordEquiv_swap r1 r2]
        cases seqEquiv tyEquiv a1 a2 <;> cases recordEquiv r1 r2 <;>
          simp [List.map_append]
      · rw [if_neg (fun h => hn h.symm), if_neg hn]; rfl
  all_goals rfl

theorem compareDecl_swap (t1 t2 : Tree) (p : Nat × Nat) :
    compareDecl t2 t1 p.swap = (compareDecl t1 t2 p).map (List.map Prod.swap) := by
  simp only [compareDecl, Prod.fst_swap, Prod.snd_swap]
  cases t1.decls[p.1]? <;> cases t2.decls[p.2]? <;>
    simp only [Option.map_none', Option.map_some']
  all_goals first
  | rfl
  | exact declEquiv_swap _ _

theorem processQueue_swap (t1 t2 : Tree) :
    ∀ (fuel : Nat) (queue memo : List (Nat × Nat)),
      processQueue t2 t1 fuel (queue.map Prod.swap) (memo.map Prod.swap) =
        processQueue t1 t2 fuel queue memo := by
  intro fuel
  induction fuel with
  | zero => intro queue memo; rfl
  | succ fuel ih =>
      intro queue memo
      cases queue with
      | nil => rfl
      | cons p rest =>
          simp only [List.map_cons, processQueue]
          by_cases hp : p ∈ memo
          · rw [if_pos hp, if_pos (List.mem_map_of_mem Prod.swap hp)]
            exact ih rest memo
          · have hp' : p.swap ∉ memo.map Prod.swap := by
              intro hmem
              rcases List.mem_map.mp hmem with ⟨q, hq, hqe⟩
              exact hp (Prod.swap_injective hqe ▸ hq)
            rw [if_neg hp, if_neg hp']
            rw [compareDecl_swap t1 t2 p]
            cases compareDecl t1 t2 p with
            | none => rfl
            | some children =>
                simp only [Option.map_some']
                have h := ih (rest ++ children) (p :: memo)
                rw [List.map_append, List.map_cons] at h
                exact h

theorem fuelBound_comm (t1 t2 : Tree) : fuelBound t2 t1 = fuelBound t1 t2 := by
  simp only [fuelBound]
  ring

/-! Theorems for the frozen claims. -/

/-- Claim C1: the checker judges `char` versus `signed char` equivalent
when compared as top-level declarations (the reference engine never looks
at the type of a variable declaration), but not equivalent when the same
pair of builtin types is nested as a record field type or as a template
argument of a class template specialization. -/
theorem charVsSignedChar_topLevel_vs_nested :
    isEquivalent (varTree charTy) (varTree scharTy) 0 0 = true ∧
    isEquivalent (recTree charTy) (recTree scharTy) 0 0 = false ∧
    isEquivalent (specTree charTy) (specTree scharTy) 0 0 = false := by
  refine ⟨?_, ?_, ?_⟩ <;> decide

/-- Claim C8: builtin types are compared under signedness normalization,
so `int` is equivalent to `signed int` at top level, inside a record
field, and as a template argument of a class template specialization. -/
theorem int_signedInt_normalized_everywhere :
    isEquivalent (varTree intTy) (varTree sintTy) 0 0 = true ∧
    isEquivalent (recTree intTy) (recTree sintTy) 0 0 = true ∧
    isEquivalent (specTree intTy) (specTree sintTy) 0 0 = true := by
  refine ⟨?_, ?_, ?_⟩ <;> decide

/-- Claim C2: the memo is keyed by the pair of identities, so comparing
`void foo(A, A)` against `void foo(A, B)` yields false: the pair of A
with B is judged on its own and its mismatch is not masked by the
equivalent pair of A with A, while the matching input still compares
equivalent. -/
theorem memo_pair_keyed_fooAA_vs_fooAB :
    isEquivalent treeAA treeAB 2 2 = false ∧
    isEquivalent treeAA treeAA 2 2 = true := by
  refine ⟨?_, ?_⟩ <;> decide

/-- Claim C3: exception specifications are equivalent exactly when their
four-way classification coincides; concretely `noexcept` versus
`noexcept(true)` is not equivalent, `noexcept(false)` versus
`noexcept(false)` is equivalent, and for two conditional specifications
the condition tokens are never consulted: any two conditions give an
equivalent verdict. -/
theorem exceptionSpec_classification :
    (∀ e1 e2 : ExceptionSpec, excEquiv e1 e2 = true ↔ classifyExc e1 = classifyExc e2) ∧
    isEquivalent (fnExc .noexceptUncond) (fnExc (.noexceptCond 1)) 0 0 = false ∧
    isEquivalent (fnExc (.noexceptCond 0)) (fnExc (.noexceptCond 0)) 0 0 = true ∧
    (∀ c1 c2 : Nat,
      isEquivalent (fnExc (.noexceptCond c1)) (fnExc (.noexceptCond c2)) 0 0 = true) := by
  refine ⟨?_, by decide, by decide, fun _ _ => rfl⟩
  intro e1 e2
  cases e1 <;> cases e2 <;> simp [excEquiv, classifyExc]

/-- Claim C4: reordering sibling members inside a namespace does not, by
itself, change the verdict of a re-queried child declaration pair — the
function pair still compares equivalent after the member list of the
namespace is permuted — whereas reordering the fields of a record at the
declaration-list level makes the two records not equivalent. -/
theorem namespace_reorder_vs_field_reorder :
    isEquivalent (nsTree [1, 2]) (nsTree [1, 2]) 3 3 = true ∧
    isEquivalent (nsTree [1, 2]) (nsTree [2, 1]) 3 3 = true ∧
    isEquivalent (fieldsTree [⟨"a", intTy⟩, ⟨"b", intTy⟩])
                 (fieldsTree [⟨"b", intTy⟩, ⟨"a", intTy⟩]) 0 0 = false := by
  refine ⟨?_, ?_, ?_⟩ <;> decide

/-- Claim C5: a top-level const qualifier on a by-value parameter is
insignificant — `void foo(int)` is equivalent to `void foo(const int)` —
but the same qualifier under a reference is significant —
`void foo(int &)` is not equivalent to `void foo(const int &)`. -/
theorem param_const_byValue_vs_reference :
    isEquivalent (fnParams [intTy]) (fnParams [.builtin .intName constQuals]) 0 0 = true ∧
    isEquivalent (fnParams [.reference .lvalueRef intTy])
                 (fnParams [.reference .lvalueRef (.builtin .intName constQuals)]) 0 0 = false := by
  refine ⟨?_, ?_⟩ <;> decide

/-- Claim C6: for two methods, a mismatch in any one of is-virtual,
is-pure, is-const, is-static, ref-qualifier, or access independently
forces the verdict false, while a mismatch in final-ness alone leaves
the verdict true for every combination of the two final flags. -/
theorem method_qualifier_matrix :
    isEquivalent (methodTree baseMQ) (methodTree { baseMQ with isVirtual := true }) 0 0 = false ∧
    isEquivalent (methodTree baseMQ) (methodTree { baseMQ with isPure := true }) 0 0 = false ∧
    isEquivalent (methodTree baseMQ) (methodTree { baseMQ with isConstMethod := true }) 0 0 = false ∧
    isEquivalent (methodTree baseMQ) (methodTree { baseMQ with isStatic := true }) 0 0 = false ∧
    isEquivalent (methodTree baseMQ) (methodTree { baseMQ with refQual := .rvalueRefQual }) 0 0 = false ∧
    isEquivalent (methodTree baseMQ) (methodTree { baseMQ with access := .privateAcc }) 0 0 = false ∧
    (∀ b1 b2 : Bool,
      isEquivalent (methodTree { baseMQ with isVirtual := true, isFinal := b1 })
                   (methodTree { baseMQ with isVirtual := true, isFinal := b2 }) 0 0 = true) := by
  refine ⟨?_, ?_, ?_, ?_, ?_, ?_, ?_⟩ <;> decide

/-- Claim C7: for every pair of input declarations over finite trees the
queue-based traversal terminates — the fuel budget used by isEquivalent
always suffices for the queue to drain (the traversal reaches a verdict
rather than running out of fuel), because the memo lets each concrete
pair of identities be expanded at most once, even when the reference
graph is cyclic. -/
theorem traversal_terminates (t1 t2 : Tree) (d1 d2 : Nat) :
    (processQueue t1 t2 (fuelBound t1 t2) [(d1, d2)] []).isSome := by
  have hA : ∀ i ∈ idsOfTree t1, i ∈ insert d1 (idsOfTree t1).toFinset := by
    intro i hi
    exact Finset.mem_insert_of_mem (List.mem_toFinset.mpr hi)
  have hB : ∀ i ∈ idsOfTree t2, i ∈ insert d2 (idsOfTree t2).toFinset := by
    intro i hi
    exact Finset.mem_insert_of_mem (List.mem_toFinset.mpr hi)
  refine processQueue_fuel t1 t2 _ _ hA hB (fuelBound t1 t2) [(d1, d2)] [] ?_ ?_ ?_ ?_
  · intro p hp
    rcases List.mem_cons.mp hp with rfl | hfalse
    · exact ⟨Finset.mem_insert_self _ _, Finset.mem_insert_self _ _⟩
    · cases hfalse
  · intro p hp; cases hp
  · exact List.nodup_nil
  · have hcA : (insert d1 (idsOfTree t1).toFinset).card ≤ 1 + (idsOfTree t1).length :=
      Nat.le_trans (Finset.card_insert_le _ _)
        (by have := List.toFinset_card_le (idsOfTree t1); omega)
    have hcB : (insert d2 (idsOfTree t2).toFinset).card ≤ 1 + (idsOfTree t2).length :=
      Nat.le_trans (Finset.card_insert_le _ _)
        (by have := List.toFinset_card_le (idsOfTree t2); omega)
    have hprod : (insert d1 (idsOfTree t1).toFinset).card *
        (insert d2 (idsOfTree t2).toFinset).card * ((idsOfTree t1).length + 1) ≤
        (1 + (idsOfTree t1).length) * (1 + (idsOfTree t2).length) *
          ((idsOfTree t1).length + (idsOfTree t2).length + 1) :=
      Nat.mul_le_mul (Nat.mul_le_mul hcA hcB) (by omega)
    simp only [fuelBound, List.length_cons, List.length_nil, Nat.sub_zero]
    omega

/-- Claim C9: the checker is symmetric — for every pair of trees and
every pair of queried declaration identities, the verdict of
isEquivalent is unchanged when the two sides are exchanged, because
every kind-specific comparator is itself symmetric and the traversal
commutes with swapping the sides of every queued and memoized pair. -/
theorem isEquivalent_symm (t1 t2 : Tree) (d1 d2 : Nat) :
    isEquivalent t1 t2 d1 d2 = isEquivalent t2 t1 d2 d1 := by
  simp only [isEquivalent]
  rw [fuelBound_comm t1 t2]
  have h := processQueue_swap t1 t2 (fuelBound t1 t2) [(d1, d2)] []
  simp only [List.map_cons, List.map_nil, Prod.swap_prod_mk] at h
  rw [h]

/-- Claim C10: whether a method body is written in-class or out of class
never affects the verdict — a virtual method defined out of class is
equivalent to the same virtual method defined in-class, for every
combination of body placements — while a virtual versus non-virtual
mismatch forces false regardless of where each body appears. -/
theorem outOfClass_body_placement_irrelevant :
    (∀ b1 b2 : Bool, isEquivalent (virtMethodTree b1) (virtMethodTree b2) 0 0 = true) ∧
    (∀ b1 b2 : Bool, isEquivalent (virtMethodTree b1) (plainMethodTree b2) 0 0 = false) := by
  refine ⟨?_, ?_⟩ <;> decide

end StructEquiv
